import Mathlib

/-!
# Verification of the portfolio-optimization core

Shallow embedding, over exact rationals, of the parts of the
`portfolio_optimization` package that the specification talks about:

* `utils/tools.py` : `dominate`, `dominate_slow`, `portfolio_returns`,
  `rand_weights`, `walk_forward`;
* `optimization/cvar.py` : the Rockafellar–Uryasev mean-CVaR program and the
  frontier sweep;
* `assets.py` : the simple-returns matrix, its shape accessors and the
  preprocessing threshold validation;
* the `Portfolio` / `MultiPeriodPortfolio` metric contracts (their module is
  not among the sources; those definitions are modelled from the spec and the
  in-repo tests, and are marked as such).

Machine floats are modelled by `ℚ` (the programs only use field arithmetic and
comparisons); square roots, where a metric is a standard deviation, live in `ℝ`.
-/

namespace PortfolioOpt

/-! ## `utils/tools.py`: dominance -/

/-- The loop body of `dominate` from `utils/tools.py`: iterate over the zipped
fitness vectors carrying the `not_equal` flag; return `false` as soon as a
component of the first vector is strictly smaller, otherwise return whether
some component was strictly larger. -/
def dominateLoop : List (ℚ × ℚ) → Bool → Bool
  | [], not_equal => not_equal
  | (self_value, other_value) :: rest, not_equal =>
    if other_value < self_value then dominateLoop rest true
    else if self_value < other_value then false
    else dominateLoop rest not_equal

/-- Function `dominate(fitness_1, fitness_2)` from `utils/tools.py` (`zip` of the two
vectors, flag initially `False`). -/
def dominate (fitness_1 fitness_2 : List ℚ) : Bool :=
  dominateLoop (fitness_1.zip fitness_2) false

/-- Function `dominate_slow(fitness_1, fitness_2) = np.all(f1 >= f2) and np.any(f1 > f2)`
from `utils/tools.py`; numpy broadcasting on same-shape arrays is elementwise,
i.e. over the zip of the two vectors. -/
def dominate_slow (fitness_1 fitness_2 : List ℚ) : Bool :=
  ((fitness_1.zip fitness_2).all fun p => decide (p.2 ≤ p.1)) &&
    ((fitness_1.zip fitness_2).any fun p => decide (p.2 < p.1))

/-! ## `utils/tools.py`: portfolio returns -/

/-- Function `portfolio_returns(asset_returns, weights)` from `utils/tools.py`:
start from `np.zeros(m)` (`m` = number of observations, the second component of
`asset_returns.shape`) and add `asset_returns[i] * weights[i]` for each asset
`i`.  Rows are paired with their weights, exactly as the Python loop indexes
both arrays by the same `i`. -/
def portfolio_returns (asset_returns : List (List ℚ)) (weights : List ℚ)
    (m : ℕ) : List ℚ :=
  (asset_returns.zip weights).foldl
    (fun acc rw => List.zipWith (fun a x => a + x * rw.2) acc rw.1)
    (List.replicate m 0)

/-- The mathematical dot-product series the spec describes: entry `j` is
`∑ i, w i * R i j`. -/
def dotSeries (asset_returns : List (List ℚ)) (weights : List ℚ)
    (m : ℕ) : List ℚ :=
  (List.range m).map fun j =>
    ((asset_returns.zip weights).map fun rw => rw.2 * rw.1.getD j 0).sum

/-! ## `utils/tools.py`: random weights -/

/-- The zeroing step of `rand_weights` from `utils/tools.py`:
`k[zeros_idx] = 0` for a drawn index set `zeros_idx`. -/
def zeroOut (k : List ℚ) (zeros_idx : List ℕ) : List ℚ :=
  k.mapIdx fun i x => if i ∈ zeros_idx then 0 else x

/-- Function `rand_weights(n, zeros)` from `utils/tools.py`, deterministic in the random
draw: `k` is the vector drawn by `np.random.rand(n)` (each entry in `[0,1)`)
and `zeros_idx` the index set drawn by `np.random.choice`; the result is
`k / sum(k)` after zeroing. -/
def rand_weights (k : List ℚ) (zeros_idx : List ℕ) : List ℚ :=
  let k2 := zeroOut k zeros_idx
  k2.map fun x => x / k2.sum

/-- A vector is a possible draw of `np.random.rand(n)`: every entry lies in
the half-open interval `[0, 1)` (`0.0` is a possible float draw). -/
def validDraw (k : List ℚ) : Prop := ∀ x ∈ k, 0 ≤ x ∧ x < 1

instance : DecidablePred validDraw := fun k =>
  inferInstanceAs (Decidable (∀ x ∈ k, 0 ≤ x ∧ x < 1))

/-- A possible draw of `np.random.choice(n, zeros, replace=False)`:
`zeros` pairwise-distinct indices below `n`. -/
def validZerosIdx (zeros_idx : List ℕ) (n zeros : ℕ) : Prop :=
  zeros_idx.length = zeros ∧ zeros_idx.Nodup ∧ ∀ i ∈ zeros_idx, i < n

instance (zeros_idx : List ℕ) (n zeros : ℕ) :
    Decidable (validZerosIdx zeros_idx n zeros) :=
  inferInstanceAs (Decidable
    (zeros_idx.length = zeros ∧ zeros_idx.Nodup ∧ ∀ i ∈ zeros_idx, i < n))

/-! ## `utils/tools.py`: walk-forward split -/

/-- One yielded item of `walk_forward`:
`((train_start, train_end), (test_start, test_end))`, dates as day numbers. -/
abbrev Period := (ℤ × ℤ) × (ℤ × ℤ)

/-- The `while True` loop of `walk_forward` from `utils/tools.py`, started at
`train_start`.  Each step computes `train_end = train_start + train_duration`,
`test_start = train_end`, `test_end = test_start + test_duration`; if
`test_end > end_date` it stops (clamping `test_end` to `end_date` for one last
yield when `full_period` is false and `test_start < end_date`), otherwise it
yields and advances `train_start` by `test_duration`.  The Python generator
only terminates for positive `test_duration`; this embedding returns the empty
stream when `test_duration = 0`, outside the domain the claims quantify over. -/
def walkForwardLoop (end_date : ℤ) (train_duration test_duration : ℕ)
    (full_period : Bool) (train_start : ℤ) : List Period :=
  if h0 : test_duration = 0 then []
  else if h1 : end_date < train_start + train_duration + test_duration then
    if h2 : full_period = true ∨ end_date ≤ train_start + train_duration then []
    else
      ((train_start, train_start + train_duration),
        (train_start + train_duration, end_date)) ::
        walkForwardLoop end_date train_duration test_duration full_period
          (train_start + test_duration)
  else
    ((train_start, train_start + train_duration),
      (train_start + train_duration, train_start + train_duration + test_duration)) ::
      walkForwardLoop end_date train_duration test_duration full_period
        (train_start + test_duration)
termination_by (end_date - train_start).toNat
decreasing_by
  · push_neg at h2
    omega
  · omega

/-- Function `walk_forward(start_date, end_date, train_duration, test_duration,
full_period)` from `utils/tools.py`, as the list of yielded period pairs. -/
def walk_forward (start_date end_date : ℤ) (train_duration test_duration : ℕ)
    (full_period : Bool) : List Period :=
  walkForwardLoop end_date train_duration test_duration full_period start_date

/-! ## `optimization/cvar.py`: the mean-CVaR program -/

/-- Enumeration `InvestmentType` from `meta.py` (fully invested, market neutral,
unconstrained). -/
inductive InvestmentType
  | fully_invested
  | market_neutral
  | unconstrained

/-- Modelled from the spec: `get_investment_target` (the optimization utils
module is not among the sources).  §4.2: `FULLY_INVESTED` — weights sum to 1 —,
`MARKET_NEUTRAL` — weights sum to 0 —, `UNCONSTRAINED` — no budget
constraint. -/
def getInvestmentTarget : InvestmentType → Option ℚ
  | .fully_invested => some 1
  | .market_neutral => some 0
  | .unconstrained => none

/-- A convex program handed to the external solver, over decision variables
`(w, alpha, u)`: an objective to maximize and a feasible set. -/
structure CvarProgram (n T : ℕ) where
  objective : (Fin n → ℚ) → ℚ
  feasible : (Fin n → ℚ) → ℚ → (Fin T → ℚ) → Prop

/-- The program built by `mean_cvar` in `optimization/cvar.py` for a fixed
`target_cvar` grid point: variables `w` (assets), `alpha` (scalar), `u`
(observations); objective `expected_returns.T @ w`; constraints, in source
order: `alpha + 1/(T*(1-beta)) * sum(u) <= target_cvar`,
`returns.T @ w + alpha + u >= 0`, `u >= 0`, `w >= lower_bounds`,
`w <= upper_bounds`, and `sum(w) == investment_target` when the investment
type provides a target. -/
def mean_cvar_program {n T : ℕ} (expected_returns : Fin n → ℚ)
    (returns : Fin n → Fin T → ℚ) (lower_bounds upper_bounds : Fin n → ℚ)
    (investment_type : InvestmentType) (beta : ℚ) (target_cvar : ℚ) :
    CvarProgram n T where
  objective := fun w => ∑ i, expected_returns i * w i
  feasible := fun w alpha u =>
    alpha + 1 / (T * (1 - beta)) * ∑ t, u t ≤ target_cvar ∧
    (∀ t, 0 ≤ (∑ i, returns i t * w i) + alpha + u t) ∧
    (∀ t, 0 ≤ u t) ∧
    (∀ i, lower_bounds i ≤ w i) ∧
    (∀ i, w i ≤ upper_bounds i) ∧
    match getInvestmentTarget investment_type with
    | some target => ∑ i, w i = target
    | none => True

/-! ## `optimization/cvar.py`: the frontier sweep -/

/-- Grid `np.linspace(lo, hi, num = N)`: `N` evenly spaced points from `lo` to `hi`
inclusive.  For `N = 1` the `ℚ`-division by zero makes the formula collapse to
`lo`, matching numpy's single-point convention. -/
def linspace (lo hi : ℚ) (N : ℕ) : List ℚ :=
  (List.range N).map fun k : ℕ => lo + (hi - lo) * (k : ℚ) / ((N : ℚ) - 1)

/-- The exponent grid of the mean-CVaR sweep:
`np.logspace(-3.5, -0.5, num = N)` solves one instance per exponent `e` in
`linspace(-3.5, -0.5, N)`, the target CVaR being `10 ^ e`.  Exponent and
target determine each other through the strictly monotone map `e ↦ 10 ^ e`,
so the sweep is parametrized here by the exponent. -/
def cvarTargetExponents (N : ℕ) : List ℚ := linspace (-7/2) (-1/2) N

/-- Modelled from the spec: `get_optimization_weights` (the optimization utils
module is not among the sources).  §4.2/§7: each grid point is solved
independently; infeasible or solver-failure points are dropped, not retried;
the whole call fails with `OptimizationFailed` only when every point fails.
`solve` is the external solver capability, `none` on any non-optimal status. -/
def get_optimization_weights (solve : ℚ → Option (List ℚ))
    (parameter_array : List ℚ) : Except String (List (List ℚ)) :=
  let weights := parameter_array.filterMap solve
  if weights.isEmpty then Except.error "OptimizationFailed"
  else Except.ok weights

/-- The `population_size` branch of `mean_cvar`: sweep the solver over the
logarithmic target grid `np.logspace(-3.5, -0.5, num = population_size)`. -/
def mean_cvar_sweep (solve : ℚ → Option (List ℚ)) (population_size : ℕ) :
    Except String (List (List ℚ)) :=
  get_optimization_weights solve (cvarTargetExponents population_size)

/-- The external solver contract: any returned assignment of the weight
variable has one entry per asset. -/
def solverContract (n : ℕ) (solve : ℚ → Option (List ℚ)) : Prop :=
  ∀ t w, solve t = some w → w.length = n

/-! ## `assets.py`: returns matrix and preprocessing validation -/

/-- Step `prices.pct_change()[1:]` from `assets.py`: row `j` of the result is the
elementwise relative change from price row `j` to price row `j + 1` (pandas
puts `NaN` in the first row, which `[1:]` drops). -/
def pctChangeFromSecond (prices : List (List ℚ)) : List (List ℚ) :=
  List.zipWith (List.zipWith fun p c => c / p - 1) prices prices.tail

/-- Step `.to_numpy().T`: numpy transpose by index swap; `n` is the column count of
the frame (the number of assets, `prices.shape[1]`). -/
def npTranspose (n : ℕ) (rows : List (List ℚ)) : List (List ℚ) :=
  (List.range n).map fun i => rows.map fun r => r.getD i 0

/-- Property `Assets.returns` from `assets.py`: simple returns
`prices.pct_change()[1:].to_numpy().T`, an asset-by-observation matrix. -/
def Assets.returns (n : ℕ) (prices : List (List ℚ)) : List (List ℚ) :=
  npTranspose n (pctChangeFromSecond prices)

/-- Property `Assets.asset_nb = returns.shape[0]`. -/
def Assets.asset_nb (n : ℕ) (prices : List (List ℚ)) : ℕ :=
  (Assets.returns n prices).length

/-- Property `Assets.date_nb = returns.shape[1]` (row length of the rectangular numpy
array, read off the first row). -/
def Assets.date_nb (n : ℕ) (prices : List (List ℚ)) : ℕ :=
  ((Assets.returns n prices).headD []).length

/-- The threshold validation at the top of `Assets._preprocessing`:
`if not 0 < asset_missing_threshold < 1: raise ValueError(...)`, then the same
for `dates_missing_threshold`. -/
def preprocessingThresholdCheck
    (asset_missing_threshold dates_missing_threshold : ℚ) :
    Except String Unit :=
  if ¬ (0 < asset_missing_threshold ∧ asset_missing_threshold < 1) then
    Except.error "asset_missing_threshold has to be between 0 and 1"
  else if ¬ (0 < dates_missing_threshold ∧ dates_missing_threshold < 1) then
    Except.error "dates_missing_threshold has to be between 0 and 1"
  else Except.ok ()

/-! ## `Portfolio` / `MultiPeriodPortfolio` metric models -/

/-- Sample mean of a return series (`np.mean`). -/
def sampleMean (xs : List ℚ) : ℚ := xs.sum / xs.length

/-- Bessel-corrected sample variance (`np.var(xs, ddof=1)`). -/
def sampleVarDdof1 (xs : List ℚ) : ℚ :=
  ((xs.map fun x => (x - sampleMean xs) ^ 2).sum) / ((xs.length : ℚ) - 1)

/-- Bessel-corrected sample standard deviation (`np.std(xs, ddof=1)`). -/
noncomputable def sampleStd (xs : List ℚ) : ℝ :=
  Real.sqrt (sampleVarDdof1 xs)

/-- Downside semivariance about the mean with Bessel correction:
`sum(min(0, x - mean(x))^2) / (len(x) - 1)`, as asserted by
`test_multi_period_portfolio` and §4.3 of the spec. -/
def downsideVarDdof1 (xs : List ℚ) : ℚ :=
  ((xs.map fun x => (min 0 (x - sampleMean xs)) ^ 2).sum) / ((xs.length : ℚ) - 1)

/-- Downside standard deviation: square root of the downside semivariance. -/
noncomputable def downsideStdOf (xs : List ℚ) : ℝ :=
  Real.sqrt (downsideVarDdof1 xs)

/-- Modelled from the spec: the `Portfolio` entity (`portfolio.py` is not among
the sources; this follows §3/§4.3 and `test_multi_period_portfolio`): a
portfolio owns a weight vector and the asset-by-observation return matrix it
was computed against (`m` observations), its return series is
`portfolio_returns(asset_returns, weights)`, and its metrics are statistics of
that series. -/
structure Portfolio where
  weights : List ℚ
  asset_returns : List (List ℚ)
  m : ℕ

/-- The per-period return series of a portfolio. -/
def Portfolio.returnSeries (p : Portfolio) : List ℚ :=
  portfolio_returns p.asset_returns p.weights p.m

/-- Metric `Portfolio.mean`: sample mean of the return series. -/
def Portfolio.mean (p : Portfolio) : ℚ := sampleMean p.returnSeries

/-- Metric `Portfolio.std`: Bessel-corrected standard deviation of the return
series. -/
noncomputable def Portfolio.std (p : Portfolio) : ℝ := sampleStd p.returnSeries

/-- Modelled from the spec: `MultiPeriodPortfolio` (`portfolio.py` is not among
the sources; §3: "Its return series is the concatenation, in period order, of
each sub-portfolio's per-date returns; all aggregate metrics are computed over
this concatenated series").  The entity is the ordered list of sub-period
portfolios, as built by successive `add` calls. -/
def MultiPeriodPortfolio : Type := List Portfolio

/-- The concatenated return series of a multi-period portfolio. -/
def MultiPeriodPortfolio.returnSeries (mpp : MultiPeriodPortfolio) : List ℚ :=
  (List.map Portfolio.returnSeries mpp).flatten

/-- Metric `MultiPeriodPortfolio.mean`. -/
def MultiPeriodPortfolio.mean (mpp : MultiPeriodPortfolio) : ℚ :=
  sampleMean mpp.returnSeries

/-- Metric `MultiPeriodPortfolio.std` (ddof = 1). -/
noncomputable def MultiPeriodPortfolio.std (mpp : MultiPeriodPortfolio) : ℝ :=
  sampleStd mpp.returnSeries

/-- Metric `MultiPeriodPortfolio.downside_std`. -/
noncomputable def MultiPeriodPortfolio.downside_std
    (mpp : MultiPeriodPortfolio) : ℝ :=
  downsideStdOf mpp.returnSeries

/-! ## Theorems: dominance (`dominate`, `dominate_slow`) -/

/-- The loop of `dominate` computes "all components at least as large, and the
flag or some component strictly larger". -/
theorem dominateLoop_all_any (l : List (ℚ × ℚ)) (b : Bool) :
    dominateLoop l b =
      ((l.all fun p => decide (p.2 ≤ p.1)) &&
        (b || l.any fun p => decide (p.2 < p.1))) := by
  induction l generalizing b with
  | nil => simp [dominateLoop]
  | cons hd tl ih =>
    obtain ⟨s, o⟩ := hd
    by_cases h1 : o < s
    · have h2 : o ≤ s := le_of_lt h1
      simp [dominateLoop, h1, h2, ih]
    · by_cases h3 : s < o
      · have h4 : ¬ (o ≤ s) := not_le.mpr h3
        simp [dominateLoop, h1, h3, h4]
      · have h5 : o ≤ s := not_lt.mp h3
        simp [dominateLoop, h1, h3, h5, ih]

/-- Zipping a list with itself never yields a strictly decreasing pair, so the
loop returns its flag unchanged. -/
theorem dominateLoop_zip_self (f : List ℚ) (b : Bool) :
    dominateLoop (f.zip f) b = b := by
  induction f with
  | nil => rfl
  | cons x xs ih =>
    rw [List.zip_cons_cons, dominateLoop, if_neg (lt_irrefl x),
      if_neg (lt_irrefl x)]
    exact ih

/-- C3: the dominance relation is irreflexive and antisymmetric: `dominate f f`
is false for every fitness vector `f`, and for equal-length fitness vectors,
`dominate a b = true` implies `dominate b a = false`. -/
theorem dominate_irrefl_antisymm :
    (∀ f : List ℚ, dominate f f = false) ∧
      (∀ a b : List ℚ, a.length = b.length →
        dominate a b = true → dominate b a = false) := by
  constructor
  · intro f
    exact dominateLoop_zip_self f false
  · intro a b _hlen hab
    rw [dominate, dominateLoop_all_any, Bool.false_or, Bool.and_eq_true,
      List.all_eq_true, List.any_eq_true] at hab
    obtain ⟨hall, -⟩ := hab
    rw [dominate, dominateLoop_all_any, Bool.false_or]
    have hany : ((b.zip a).any fun p => decide (p.2 < p.1)) = false := by
      rw [← List.zip_swap a b, List.any_map, List.any_eq_false]
      intro q hq
      have h := hall q hq
      simp only [decide_eq_true_eq] at h
      simp only [Function.comp_apply, Prod.snd_swap, Prod.fst_swap,
        decide_eq_true_eq]
      exact not_lt.mpr h
    rw [hany, Bool.and_false]

/-- Witness for C3 at concrete fitness vectors. -/
theorem dominate_irrefl_antisymm_witness :
    dominate [(1 : ℚ), 2] [1, 2] = false ∧
      dominate [(1 : ℚ), 1] [2, 1] = false :=
  ⟨dominate_irrefl_antisymm.1 [1, 2],
    dominate_irrefl_antisymm.2 [2, 1] [1, 1] (by decide) (by decide)⟩

/-- Predicate `all` over a zip of equal-length lists, characterized componentwise. -/
theorem zip_all_getD (f : ℚ → ℚ → Bool) :
    ∀ (a b : List ℚ), a.length = b.length →
      ((((a.zip b).all fun p => f p.1 p.2) = true) ↔
        ∀ i < a.length, f (a.getD i 0) (b.getD i 0) = true)
  | [], [], _ => by simp
  | [], y :: ys, h => by simp at h
  | x :: xs, [], h => by simp at h
  | x :: xs, y :: ys, h => by
    have ih := zip_all_getD f xs ys (by simpa using h)
    simp only [List.zip_cons_cons, List.all_cons, Bool.and_eq_true, ih]
    constructor
    · rintro ⟨hx, hrest⟩ i hi
      cases i with
      | zero => simpa using hx
      | succ j =>
        rw [List.getD_cons_succ, List.getD_cons_succ]
        exact hrest j (by simpa using hi)
    · intro hall
      refine ⟨by simpa using hall 0 (by simp), fun j hj => ?_⟩
      have := hall (j + 1) (by simpa using hj)
      simpa using this

/-- Predicate `any` over a zip of equal-length lists, characterized componentwise. -/
theorem zip_any_getD (f : ℚ → ℚ → Bool) :
    ∀ (a b : List ℚ), a.length = b.length →
      ((((a.zip b).any fun p => f p.1 p.2) = true) ↔
        ∃ i, i < a.length ∧ f (a.getD i 0) (b.getD i 0) = true)
  | [], [], _ => by simp
  | [], y :: ys, h => by simp at h
  | x :: xs, [], h => by simp at h
  | x :: xs, y :: ys, h => by
    have ih := zip_any_getD f xs ys (by simpa using h)
    simp only [List.zip_cons_cons, List.any_cons, Bool.or_eq_true, ih]
    constructor
    · rintro (hx | ⟨j, hj, hf⟩)
      · exact ⟨0, by simp, by simpa using hx⟩
      · exact ⟨j + 1, by simpa using hj, by simpa using hf⟩
    · rintro ⟨i, hi, hf⟩
      cases i with
      | zero => exact Or.inl (by simpa using hf)
      | succ j =>
        refine Or.inr ⟨j, by simpa using hi, ?_⟩
        simpa using hf

/-- C4: on equal-length fitness vectors the loop-based `dominate` agrees with
the vectorized `dominate_slow`, and both decide "every component of the first
vector is at least the corresponding component of the second, and at least one
is strictly greater". -/
theorem dominate_refines_dominate_slow (a b : List ℚ)
    (hlen : a.length = b.length) :
    dominate a b = dominate_slow a b ∧
      (dominate_slow a b = true ↔
        (∀ i < a.length, b.getD i 0 ≤ a.getD i 0) ∧
          ∃ i, i < a.length ∧ b.getD i 0 < a.getD i 0) := by
  constructor
  · rw [dominate, dominateLoop_all_any, Bool.false_or, dominate_slow]
  · rw [dominate_slow, Bool.and_eq_true,
      zip_all_getD (fun s o => decide (o ≤ s)) a b hlen,
      zip_any_getD (fun s o => decide (o < s)) a b hlen]
    simp only [decide_eq_true_eq]

/-- Witness for C4 at concrete fitness vectors. -/
theorem dominate_refines_dominate_slow_witness :
    dominate [(2 : ℚ), 1] [1, 1] = dominate_slow [(2 : ℚ), 1] [1, 1] ∧
      (dominate_slow [(2 : ℚ), 1] [1, 1] = true ↔
        (∀ i < ([(2 : ℚ), 1] : List ℚ).length,
            ([(1 : ℚ), 1] : List ℚ).getD i 0 ≤ ([(2 : ℚ), 1] : List ℚ).getD i 0) ∧
          ∃ i, i < ([(2 : ℚ), 1] : List ℚ).length ∧
            ([(1 : ℚ), 1] : List ℚ).getD i 0 < ([(2 : ℚ), 1] : List ℚ).getD i 0) :=
  dominate_refines_dominate_slow [2, 1] [1, 1] (by decide)

/-! ## Theorems: preprocessing threshold validation -/

/-- C8: with preprocessing enabled, the threshold validation of
`Assets._preprocessing` raises a `ValueError` if and only if one of the two
thresholds lies outside the open interval `(0, 1)`; for thresholds strictly
inside it never raises. -/
theorem preprocessing_threshold_check_iff :
    ∀ a d : ℚ,
      ((∃ e, preprocessingThresholdCheck a d = Except.error e) ↔
        ¬ (0 < a ∧ a < 1) ∨ ¬ (0 < d ∧ d < 1)) ∧
      (preprocessingThresholdCheck a d = Except.ok () ↔
        (0 < a ∧ a < 1) ∧ (0 < d ∧ d < 1)) := by
  intro a d
  by_cases ha : 0 < a ∧ a < 1 <;> by_cases hd : 0 < d ∧ d < 1 <;>
    simp [preprocessingThresholdCheck, ha, hd]

/-! ## Theorems: random simplex weights -/

/-- Sums distribute over the elementwise division of a list by a constant. -/
theorem sum_map_div (l : List ℚ) (c : ℚ) :
    (l.map fun x => x / c).sum = l.sum / c := by
  induction l with
  | nil => simp
  | cons x xs ih => simp [ih, add_div]

/-- C9 counterexample: zeroing every index (`zeros = n = 1`) of the possible
draw `k = [1/2]` makes the divisor `sum(k)` zero, so the normalization divides
by zero (`nan` in numpy) and the returned weights do not sum to 1. -/
theorem rand_weights_counterexample :
    validDraw [mkRat 1 2] ∧ validZerosIdx [0] 1 1 ∧
      (zeroOut [mkRat 1 2] [0]).sum = 0 ∧
      (rand_weights [mkRat 1 2] [0]).sum ≠ 1 := by
  refine ⟨by decide, by decide, by simp [zeroOut], ?_⟩
  simp [rand_weights, zeroOut]

/-- C9 amended: for every possible draw whose entries surviving the zeroing
have nonzero sum, the normalization is well defined and the returned weights
sum to 1 (the all-zero surviving case — certain when `zeros = n`, and a
possible `np.random.rand` draw otherwise — divides by zero). -/
theorem rand_weights_sum_one (k : List ℚ) (zeros_idx : List ℕ)
    (hdraw : validDraw k) (hsum : (zeroOut k zeros_idx).sum ≠ 0) :
    (rand_weights k zeros_idx).sum = 1 := by
  show ((zeroOut k zeros_idx).map
    fun x => x / (zeroOut k zeros_idx).sum).sum = 1
  rw [sum_map_div]
  exact div_self hsum

/-- Witness for the amended C9 at a concrete draw. -/
theorem rand_weights_sum_one_witness :
    (rand_weights [mkRat 1 2] []).sum = 1 :=
  rand_weights_sum_one [mkRat 1 2] [] (by decide) (by simp [zeroOut])

/-! ## Theorems: walk-forward split -/

/-- Every period pair yielded by the walk-forward loop has
`train_end = train_start + train_duration`, `test_start = train_end`,
`test_end ≤ test_start + test_duration`, and a train start no earlier than the
loop's starting point. -/
theorem walkForwardLoop_mem (e : ℤ) (trd tsd : ℕ) (full : Bool) (s : ℤ) :
    ∀ x ∈ walkForwardLoop e trd tsd full s,
      x.1.2 = x.1.1 + trd ∧ x.2.1 = x.1.1 + trd ∧
        x.2.2 ≤ x.2.1 + tsd ∧ s ≤ x.1.1 := by
  induction s using walkForwardLoop.induct e trd tsd full with
  | case1 s h0 => rw [walkForwardLoop]; simp [h0]
  | case2 s h0 h1 h2 => rw [walkForwardLoop]; simp [h0, h1, h2]
  | case3 s h0 h1 h2 ih =>
    rw [walkForwardLoop]
    simp only [dif_neg h0, dif_pos h1, dif_neg h2, List.mem_cons]
    rintro x (rfl | hx)
    · push_neg at h2
      refine ⟨rfl, rfl, ?_, le_refl s⟩
      simp only
      omega
    · obtain ⟨ha, hb, hc, hd⟩ := ih x hx
      refine ⟨ha, hb, hc, ?_⟩
      omega
  | case4 s h0 h1 ih =>
    rw [walkForwardLoop]
    simp only [dif_neg h0, dif_neg h1, List.mem_cons]
    rintro x (rfl | hx)
    · refine ⟨rfl, rfl, ?_, le_refl s⟩
      simp only
      omega
    · obtain ⟨ha, hb, hc, hd⟩ := ih x hx
      refine ⟨ha, hb, hc, ?_⟩
      omega

/-- The first period pair yielded from starting point `s` starts its train
period at `s` and its test period at `s + train_duration`. -/
theorem walkForwardLoop_head (e : ℤ) (trd tsd : ℕ) (full : Bool) (s : ℤ)
    (x : Period) (hx : (walkForwardLoop e trd tsd full s).head? = some x) :
    x.1.1 = s ∧ x.1.2 = s + trd ∧ x.2.1 = s + trd := by
  rw [walkForwardLoop] at hx
  split at hx
  · simp at hx
  · split at hx
    · split at hx
      · simp at hx
      · simp only [List.head?_cons, Option.some.injEq] at hx
        subst hx; exact ⟨rfl, rfl, rfl⟩
    · simp only [List.head?_cons, Option.some.injEq] at hx
      subst hx; exact ⟨rfl, rfl, rfl⟩

/-- Successive yielded test periods start exactly `test_duration` days
apart. -/
theorem walkForwardLoop_chain (e : ℤ) (trd tsd : ℕ) (full : Bool) (s : ℤ) :
    List.Chain' (fun x y => y.2.1 = x.2.1 + (tsd : ℤ))
      (walkForwardLoop e trd tsd full s) := by
  induction s using walkForwardLoop.induct e trd tsd full with
  | case1 s h0 => rw [walkForwardLoop]; simp [h0]
  | case2 s h0 h1 h2 => rw [walkForwardLoop]; simp [h0, h1, h2]
  | case3 s h0 h1 h2 ih =>
    rw [walkForwardLoop]
    simp only [dif_neg h0, dif_pos h1, dif_neg h2]
    refine List.chain'_cons'.mpr ⟨?_, ih⟩
    intro y hy
    have := walkForwardLoop_head e trd tsd full (s + tsd) y hy
    simp only [this.2.2]
    ring
  | case4 s h0 h1 ih =>
    rw [walkForwardLoop]
    simp only [dif_neg h0, dif_neg h1]
    refine List.chain'_cons'.mpr ⟨?_, ih⟩
    intro y hy
    have := walkForwardLoop_head e trd tsd full (s + tsd) y hy
    simp only [this.2.2]
    ring

/-- Yielded test periods are pairwise non-overlapping: any earlier test period
ends at or before any later one starts. -/
theorem walkForwardLoop_pairwise (e : ℤ) (trd tsd : ℕ) (full : Bool) (s : ℤ) :
    List.Pairwise (fun x y => x.2.2 ≤ y.2.1)
      (walkForwardLoop e trd tsd full s) := by
  induction s using walkForwardLoop.induct e trd tsd full with
  | case1 s h0 => rw [walkForwardLoop]; simp [h0]
  | case2 s h0 h1 h2 => rw [walkForwardLoop]; simp [h0, h1, h2]
  | case3 s h0 h1 h2 ih =>
    rw [walkForwardLoop]
    simp only [dif_neg h0, dif_pos h1, dif_neg h2]
    refine List.pairwise_cons.mpr ⟨?_, ih⟩
    intro y hy
    obtain ⟨-, hb, -, hd⟩ := walkForwardLoop_mem e trd tsd full (s + tsd) y hy
    push_neg at h2
    simp only
    omega
  | case4 s h0 h1 ih =>
    rw [walkForwardLoop]
    simp only [dif_neg h0, dif_neg h1]
    refine List.pairwise_cons.mpr ⟨?_, ih⟩
    intro y hy
    obtain ⟨-, hb, -, hd⟩ := walkForwardLoop_mem e trd tsd full (s + tsd) y hy
    simp only
    omega

/-- C10: every pair yielded by `walk_forward` has its test period begin where
its train period ends and last at most `test_duration` days; successive test
periods start exactly `test_duration` days apart; and test periods are
pairwise non-overlapping (each ends at or before any later one starts). -/
theorem walk_forward_period_invariants (start_date end_date : ℤ)
    (train_duration test_duration : ℕ) (full_period : Bool)
    (htest : 1 ≤ test_duration) :
    (∀ x ∈ walk_forward start_date end_date train_duration test_duration
        full_period,
        x.2.1 = x.1.2 ∧ x.2.2 ≤ x.2.1 + test_duration) ∧
      List.Chain' (fun x y => y.2.1 = x.2.1 + (test_duration : ℤ))
        (walk_forward start_date end_date train_duration test_duration
          full_period) ∧
      List.Pairwise (fun x y => x.2.2 ≤ y.2.1)
        (walk_forward start_date end_date train_duration test_duration
          full_period) := by
  refine ⟨?_,
    walkForwardLoop_chain end_date train_duration test_duration full_period
      start_date,
    walkForwardLoop_pairwise end_date train_duration test_duration full_period
      start_date⟩
  intro x hx
  obtain ⟨ha, hb, hc, -⟩ :=
    walkForwardLoop_mem end_date train_duration test_duration full_period
      start_date x hx
  exact ⟨hb.trans ha.symm, hc⟩

/-- Witness for C10 at concrete dates and durations. -/
theorem walk_forward_period_invariants_witness :
    (∀ x ∈ walk_forward 0 10 3 2 true,
        x.2.1 = x.1.2 ∧ x.2.2 ≤ x.2.1 + (2 : ℕ)) ∧
      List.Chain' (fun x y => y.2.1 = x.2.1 + ((2 : ℕ) : ℤ))
        (walk_forward 0 10 3 2 true) ∧
      List.Pairwise (fun x y => x.2.2 ≤ y.2.1) (walk_forward 0 10 3 2 true) :=
  walk_forward_period_invariants 0 10 3 2 true (by decide)

/-! ## Theorems: the mean-CVaR program -/

/-- C1: for a fully-invested mean-CVaR instance the program built by
`mean_cvar` is exactly the Rockafellar–Uryasev linearization: its feasible set
is "each slack dominates `max(0, -(r_t·w + alpha))`, the CVaR expression
`alpha + 1/(T(1-beta))·sum(u)` is at most the target, the per-asset bounds
hold, and the weights sum to 1", its objective is `mu·w`, and the two source
slack constraints (`u ≥ 0` and `Rᵀw + alpha + u ≥ 0`) hold at an observation
exactly when the slack is at least `max(0, -(r_t·w + alpha))` — so the minimal
feasible slack is that maximum. -/
theorem mean_cvar_rockafellar_uryasev (n T : ℕ) (expected_returns : Fin n → ℚ)
    (returns : Fin n → Fin T → ℚ) (lower_bounds upper_bounds : Fin n → ℚ)
    (beta target_cvar : ℚ) (w : Fin n → ℚ) (alpha : ℚ) (u : Fin T → ℚ) :
    ((mean_cvar_program expected_returns returns lower_bounds upper_bounds
        .fully_invested beta target_cvar).feasible w alpha u ↔
      (∀ t, max 0 (-(∑ i, returns i t * w i) - alpha) ≤ u t) ∧
        alpha + 1 / (T * (1 - beta)) * ∑ t, u t ≤ target_cvar ∧
        (∀ i, lower_bounds i ≤ w i ∧ w i ≤ upper_bounds i) ∧
        ∑ i, w i = 1) ∧
      (mean_cvar_program expected_returns returns lower_bounds upper_bounds
        .fully_invested beta target_cvar).objective w
          = ∑ i, expected_returns i * w i ∧
      (∀ t, (0 ≤ u t ∧ 0 ≤ (∑ i, returns i t * w i) + alpha + u t) ↔
        max 0 (-(∑ i, returns i t * w i) - alpha) ≤ u t) := by
  have hmax : ∀ t, (0 ≤ u t ∧ 0 ≤ (∑ i, returns i t * w i) + alpha + u t) ↔
      max 0 (-(∑ i, returns i t * w i) - alpha) ≤ u t := by
    intro t
    rw [max_le_iff]
    constructor
    · rintro ⟨h1, h2⟩
      exact ⟨h1, by linarith⟩
    · rintro ⟨h1, h2⟩
      exact ⟨h1, by linarith⟩
  refine ⟨?_, rfl, hmax⟩
  show (alpha + 1 / (T * (1 - beta)) * ∑ t, u t ≤ target_cvar ∧
      (∀ t, 0 ≤ (∑ i, returns i t * w i) + alpha + u t) ∧
      (∀ t, 0 ≤ u t) ∧
      (∀ i, lower_bounds i ≤ w i) ∧
      (∀ i, w i ≤ upper_bounds i) ∧
      ∑ i, w i = 1) ↔ _
  constructor
  · rintro ⟨hc, hru, hu, hlb, hub, hsum⟩
    exact ⟨fun t => (hmax t).mp ⟨hu t, hru t⟩, hc, fun i => ⟨hlb i, hub i⟩, hsum⟩
  · rintro ⟨hslack, hc, hbounds, hsum⟩
    refine ⟨hc, fun t => ((hmax t).mpr (hslack t)).2,
      fun t => ((hmax t).mpr (hslack t)).1,
      fun i => (hbounds i).1, fun i => (hbounds i).2, hsum⟩

/-! ## Theorems: the frontier sweep -/

/-- Grid `linspace` between two exponents is strictly increasing. -/
theorem linspace_strict_chain (lo hi : ℚ) (N : ℕ) (h : lo < hi) :
    List.Chain' (· < ·) (linspace lo hi N) := by
  rw [linspace,
    List.chain'_map (fun k : ℕ => lo + (hi - lo) * (k : ℚ) / ((N : ℚ) - 1))]
  cases N with
  | zero => simp
  | succ n =>
    rw [List.chain'_range_succ]
    intro m hm
    have hn : (0:ℚ) < n := by
      have h1 : 1 ≤ n := by omega
      exact_mod_cast Nat.lt_of_lt_of_le Nat.zero_lt_one h1
    have hd : ((n + 1 : ℕ) : ℚ) - 1 = (n : ℚ) := by push_cast; ring
    rw [hd]
    apply add_lt_add_left
    rw [div_lt_div_right hn]
    have hmm : (m : ℚ) < ((m + 1 : ℕ) : ℚ) := by push_cast; linarith
    nlinarith

/-- C2: the `population_size = N` sweep of `mean_cvar` solves `N` independent
instances on the logarithmic target grid `logspace(-3.5, -0.5, N)` (the grid
has `N` points, starts at exponent `-3.5` and is strictly increasing), drops
failed grid points (the result is exactly the in-order `filterMap` of the
solver over the grid, of size at most `N`, every weight vector having one
entry per asset), and the whole call fails if and only if every grid point
fails. -/
theorem mean_cvar_sweep_spec (n N : ℕ) (solve : ℚ → Option (List ℚ))
    (hN : 1 ≤ N) (hcontract : solverContract n solve) :
    (cvarTargetExponents N).length = N ∧
      (cvarTargetExponents N).head? = some (-7/2) ∧
      List.Chain' (· < ·) (cvarTargetExponents N) ∧
      (∀ ws, mean_cvar_sweep solve N = Except.ok ws →
        ws = (cvarTargetExponents N).filterMap solve ∧
          ws.length ≤ N ∧ ∀ w ∈ ws, w.length = n) ∧
      ((∃ msg, mean_cvar_sweep solve N = Except.error msg) ↔
        ∀ t ∈ cvarTargetExponents N, solve t = none) := by
  have hlen : (cvarTargetExponents N).length = N := by
    rw [cvarTargetExponents, linspace, List.length_map, List.length_range]
  refine ⟨hlen, ?_, linspace_strict_chain _ _ _ (by norm_num), ?_, ?_⟩
  · obtain ⟨k, rfl⟩ : ∃ k, N = k + 1 := ⟨N - 1, by omega⟩
    rw [cvarTargetExponents, linspace, List.range_succ_eq_map, List.map_cons,
      List.head?_cons, Option.some.injEq]
    norm_num
  · intro ws hws
    rw [mean_cvar_sweep, get_optimization_weights] at hws
    split at hws
    · exact absurd hws (by simp)
    · simp only [Except.ok.injEq] at hws
      subst hws
      refine ⟨rfl, le_trans (List.length_filterMap_le _ _) (le_of_eq hlen), ?_⟩
      intro w hw
      obtain ⟨t, ht, hsolve⟩ := List.mem_filterMap.mp hw
      exact hcontract t w hsolve
  · rw [mean_cvar_sweep, get_optimization_weights]
    split
    · rename_i hEmpty
      simp only [List.isEmpty_iff] at hEmpty
      constructor
      · intro _
        exact (List.filterMap_eq_nil_iff).mp hEmpty
      · intro _
        exact ⟨"OptimizationFailed", rfl⟩
    · rename_i hEmpty
      simp only [List.isEmpty_iff] at hEmpty
      constructor
      · rintro ⟨msg, hmsg⟩
        exact absurd hmsg (by simp)
      · intro hall
        exact absurd ((List.filterMap_eq_nil_iff).mpr hall) hEmpty

/-- Witness for C2: a two-point grid with a solver that always returns a
single-asset weight vector. -/
theorem mean_cvar_sweep_spec_witness :
    (cvarTargetExponents 2).length = 2 ∧
      (cvarTargetExponents 2).head? = some (-7/2) ∧
      List.Chain' (· < ·) (cvarTargetExponents 2) ∧
      (∀ ws, mean_cvar_sweep (fun _ : ℚ => some [(0 : ℚ)]) 2 = Except.ok ws →
        ws = (cvarTargetExponents 2).filterMap (fun _ : ℚ => some [(0 : ℚ)]) ∧
          ws.length ≤ 2 ∧ ∀ w ∈ ws, w.length = 1) ∧
      ((∃ msg, mean_cvar_sweep (fun _ : ℚ => some [(0 : ℚ)]) 2
          = Except.error msg) ↔
        ∀ t ∈ cvarTargetExponents 2, (fun _ : ℚ => some [(0 : ℚ)]) t = none) :=
  mean_cvar_sweep_spec 1 2 (fun _ : ℚ => some [(0 : ℚ)]) (by decide)
    (fun t w h => by injection h with h; subst h; rfl)

/-! ## Theorems: portfolio returns and portfolio metrics -/

/-- The accumulator of the `portfolio_returns` loop keeps its length. -/
theorem returns_fold_length (l : List (List ℚ × ℚ)) (m : ℕ) :
    ∀ acc : List ℚ, acc.length = m → (∀ rw ∈ l, rw.1.length = m) →
      (l.foldl (fun acc rw => List.zipWith (fun a x => a + x * rw.2) acc rw.1)
        acc).length = m := by
  induction l with
  | nil => intro acc hacc _; exact hacc
  | cons rw l ih =>
    intro acc hacc hrows
    rw [List.foldl_cons]
    apply ih
    · rw [List.length_zipWith, hacc, hrows rw (by simp)]
      exact Nat.min_self m
    · intro rw' h
      exact hrows rw' (by simp [h])

/-- Entry `j` of the `portfolio_returns` loop: the starting entry plus the sum
of `weights[i] * asset_returns[i][j]` over the rows consumed so far. -/
theorem returns_fold_getD (l : List (List ℚ × ℚ)) (m : ℕ) (j : ℕ)
    (hj : j < m) :
    ∀ acc : List ℚ, acc.length = m → (∀ rw ∈ l, rw.1.length = m) →
      (l.foldl (fun acc rw => List.zipWith (fun a x => a + x * rw.2) acc rw.1)
          acc).getD j 0
        = acc.getD j 0 + (l.map fun rw => rw.2 * rw.1.getD j 0).sum := by
  induction l with
  | nil => intro acc _ _; simp
  | cons rw l ih =>
    intro acc hacc hrows
    have hrw : rw.1.length = m := hrows rw (by simp)
    have hstep :
        (List.zipWith (fun a x => a + x * rw.2) acc rw.1).length = m := by
      rw [List.length_zipWith, hacc, hrw]
      exact Nat.min_self m
    rw [List.foldl_cons, ih _ hstep (fun rw' h => hrows rw' (by simp [h]))]
    have hj1 : j < acc.length := by omega
    have hj2 : j < rw.1.length := by omega
    have hj3 : j < (List.zipWith (fun a x => a + x * rw.2) acc rw.1).length := by
      omega
    rw [List.getD_eq_getElem _ _ hj3, List.getElem_zipWith,
      ← List.getD_eq_getElem acc 0 hj1, ← List.getD_eq_getElem rw.1 0 hj2,
      List.map_cons, List.sum_cons]
    ring

/-- Series `portfolio_returns` has one entry per observation. -/
theorem portfolio_returns_length (R : List (List ℚ)) (w : List ℚ) (m : ℕ)
    (hrows : ∀ row ∈ R, row.length = m) :
    (portfolio_returns R w m).length = m := by
  apply returns_fold_length
  · exact List.length_replicate m 0
  · intro rw h
    exact hrows rw.1 (List.mem_zip h).1

/-- The `portfolio_returns` loop computes the dot-product series. -/
theorem portfolio_returns_dot (R : List (List ℚ)) (w : List ℚ) (m : ℕ)
    (hrows : ∀ row ∈ R, row.length = m) :
    portfolio_returns R w m = dotSeries R w m := by
  have hlen1 : (portfolio_returns R w m).length = m :=
    portfolio_returns_length R w m hrows
  have hlen2 : (dotSeries R w m).length = m := by
    rw [dotSeries, List.length_map, List.length_range]
  apply List.ext_getElem (by rw [hlen1, hlen2])
  intro j hj1 hj2
  have hj : j < m := by omega
  have h1 : (portfolio_returns R w m).getD j 0
      = 0 + ((R.zip w).map fun rw => rw.2 * rw.1.getD j 0).sum := by
    rw [portfolio_returns, returns_fold_getD _ m j hj _
      (List.length_replicate m 0) (fun rw h => hrows rw.1 (List.mem_zip h).1)]
    rw [List.getD_eq_getElem _ _ (by rw [List.length_replicate]; exact hj),
      List.getElem_replicate]
  have h2 : (dotSeries R w m).getD j 0
      = ((R.zip w).map fun rw => rw.2 * rw.1.getD j 0).sum := by
    rw [List.getD_eq_getElem _ _ hj2]
    simp only [dotSeries, List.getElem_map, List.getElem_range]
  rw [← List.getD_eq_getElem _ 0 hj1, ← List.getD_eq_getElem _ 0 hj2, h1, h2]
  ring

/-- C5: for a weight vector of one entry per asset and a rectangular
asset-by-observation return matrix, `portfolio_returns` is the length-`m`
dot-product series (entry `j` is `∑ i, w i * R i j`), and the portfolio's
`mean` and `std` are the sample mean and the Bessel-corrected sample standard
deviation of that series. -/
theorem portfolio_returns_mean_std (R : List (List ℚ)) (w : List ℚ) (m : ℕ)
    (hlen : R.length = w.length) (hrows : ∀ row ∈ R, row.length = m) :
    portfolio_returns R w m = dotSeries R w m ∧
      (portfolio_returns R w m).length = m ∧
      Portfolio.mean ⟨w, R, m⟩ = sampleMean (dotSeries R w m) ∧
      Portfolio.std ⟨w, R, m⟩ = sampleStd (dotSeries R w m) := by
  have hdot := portfolio_returns_dot R w m hrows
  refine ⟨hdot, portfolio_returns_length R w m hrows, ?_, ?_⟩
  · show sampleMean (portfolio_returns R w m) = sampleMean (dotSeries R w m)
    rw [hdot]
  · show sampleStd (portfolio_returns R w m) = sampleStd (dotSeries R w m)
    rw [hdot]

/-- Witness for C5 at a concrete two-asset, two-observation matrix. -/
theorem portfolio_returns_mean_std_witness :
    portfolio_returns [[1, 2], [3, 4]] [1, 1] 2
        = dotSeries [[1, 2], [3, 4]] [1, 1] 2 ∧
      (portfolio_returns [[1, 2], [3, 4]] [1, 1] 2).length = 2 ∧
      Portfolio.mean ⟨[1, 1], [[1, 2], [3, 4]], 2⟩
        = sampleMean (dotSeries [[1, 2], [3, 4]] [1, 1] 2) ∧
      Portfolio.std ⟨[1, 1], [[1, 2], [3, 4]], 2⟩
        = sampleStd (dotSeries [[1, 2], [3, 4]] [1, 1] 2) :=
  portfolio_returns_mean_std [[1, 2], [3, 4]] [1, 1] 2 (by decide) (by decide)

/-- C6: a multi-period portfolio's return series is the chronological
concatenation of its sub-period portfolios' series, its mean, std and
downside-std are the statistics of that concatenated series, and (at a
concrete two-portfolio instance) those statistics differ from the averages of
the sub-portfolios' individual metrics. -/
theorem multi_period_portfolio_concatenation :
    (∀ mpp : MultiPeriodPortfolio,
      mpp.returnSeries = (List.map Portfolio.returnSeries mpp).flatten ∧
        mpp.mean = sampleMean (List.map Portfolio.returnSeries mpp).flatten ∧
        mpp.std = sampleStd (List.map Portfolio.returnSeries mpp).flatten ∧
        mpp.downside_std
          = downsideStdOf (List.map Portfolio.returnSeries mpp).flatten) ∧
      MultiPeriodPortfolio.mean [⟨[1], [[0, 0]], 2⟩, ⟨[1], [[1, 1, 1, 1]], 4⟩]
        ≠ (Portfolio.mean ⟨[1], [[0, 0]], 2⟩
            + Portfolio.mean ⟨[1], [[1, 1, 1, 1]], 4⟩) / 2 ∧
      sampleVarDdof1 (MultiPeriodPortfolio.returnSeries
          [⟨[1], [[0, 0]], 2⟩, ⟨[1], [[1, 1, 1, 1]], 4⟩])
        ≠ (sampleVarDdof1 (Portfolio.returnSeries ⟨[1], [[0, 0]], 2⟩)
            + sampleVarDdof1 (Portfolio.returnSeries ⟨[1], [[1, 1, 1, 1]], 4⟩))
            / 2 := by
  refine ⟨fun mpp => ⟨rfl, rfl, rfl, rfl⟩, ?_, ?_⟩
  · norm_num [MultiPeriodPortfolio.mean, MultiPeriodPortfolio.returnSeries,
      Portfolio.mean, Portfolio.returnSeries, portfolio_returns, sampleMean,
      List.replicate_succ, List.zipWith_cons_cons]
  · norm_num [MultiPeriodPortfolio.returnSeries, Portfolio.returnSeries,
      portfolio_returns, sampleVarDdof1, sampleMean, List.replicate_succ,
      List.zipWith_cons_cons]

/-! ## Theorems: the simple-returns matrix -/

/-- Step `pct_change()[1:]` has one row fewer than the price table. -/
theorem pct_length (prices : List (List ℚ)) :
    (pctChangeFromSecond prices).length = prices.length - 1 := by
  rw [pctChangeFromSecond, List.length_zipWith, List.length_tail]
  omega

/-- C7: for a non-empty rectangular price table with `d ≥ 2` dates and `n ≥ 1`
assets, `Assets.returns` is an `n` by `d - 1` matrix of simple period returns:
`asset_nb = n`, `date_nb = d - 1`, and entry `(i, j)` equals
`prices[j+1][i] / prices[j][i] - 1`. -/
theorem assets_returns_spec (n d : ℕ) (prices : List (List ℚ))
    (hn : 1 ≤ n) (hd : 2 ≤ d) (hlen : prices.length = d)
    (hrows : ∀ row ∈ prices, row.length = n) :
    Assets.asset_nb n prices = n ∧
      Assets.date_nb n prices = d - 1 ∧
      ∀ i < n, ∀ j < d - 1,
        ((Assets.returns n prices).getD i []).getD j 0
          = (prices.getD (j + 1) []).getD i 0 / (prices.getD j []).getD i 0
              - 1 := by
  have hpct : (pctChangeFromSecond prices).length = d - 1 := by
    rw [pct_length, hlen]
  refine ⟨?_, ?_, ?_⟩
  · rw [Assets.asset_nb, Assets.returns, npTranspose, List.length_map,
      List.length_range]
  · obtain ⟨k, rfl⟩ : ∃ k, n = k + 1 := ⟨n - 1, by omega⟩
    rw [Assets.date_nb, Assets.returns, npTranspose, List.range_succ_eq_map,
      List.map_cons, List.headD_cons, List.length_map, hpct]
  · intro i hi j hj
    have hi' : i < (List.range n).length := by rw [List.length_range]; exact hi
    have hij : i < ((List.range n).map
        fun i => (pctChangeFromSecond prices).map fun r => r.getD i 0).length := by
      rw [List.length_map]; exact hi'
    rw [Assets.returns, npTranspose,
      List.getD_eq_getElem _ _ hij, List.getElem_map, List.getElem_range]
    have hj' : j < (pctChangeFromSecond prices).length := by omega
    have hjm : j < ((pctChangeFromSecond prices).map
        fun r => r.getD i 0).length := by rw [List.length_map]; exact hj'
    rw [List.getD_eq_getElem _ _ hjm, List.getElem_map]
    have hjp : j < prices.length := by omega
    have hjt : j < prices.tail.length := by rw [List.length_tail]; omega
    have hjp1 : j + 1 < prices.length := by omega
    have hpctj : (pctChangeFromSecond prices).get ⟨j, hj'⟩
        = List.zipWith (fun p c => c / p - 1) (prices.get ⟨j, hjp⟩)
            (prices.get ⟨j + 1, hjp1⟩) := by
      simp only [List.get_eq_getElem, pctChangeFromSecond,
        List.getElem_zipWith, List.getElem_tail]
    rw [List.get_eq_getElem] at hpctj
    rw [hpctj]
    have hpj : (prices.get ⟨j, hjp⟩).length = n :=
      hrows _ (List.getElem_mem hjp)
    have hpj1 : (prices.get ⟨j + 1, hjp1⟩).length = n :=
      hrows _ (List.getElem_mem hjp1)
    rw [List.get_eq_getElem] at hpj hpj1
    have hiz : i < (List.zipWith (fun p c => c / p - 1) (prices.get ⟨j, hjp⟩)
        (prices.get ⟨j + 1, hjp1⟩)).length := by
      rw [List.get_eq_getElem, List.get_eq_getElem] at *
      rw [List.length_zipWith, hpj, hpj1]
      omega
    rw [List.getD_eq_getElem _ _ hiz, List.getElem_zipWith,
      List.getD_eq_getElem _ _ hjp1, List.getD_eq_getElem _ _ hjp,
      List.getD_eq_getElem _ _ (by rw [hpj1]; exact hi),
      List.getD_eq_getElem _ _ (by rw [hpj]; exact hi)]
    simp only [List.get_eq_getElem]

/-- Witness for C7 at a concrete 3-date, 2-asset price table. -/
theorem assets_returns_spec_witness :
    Assets.asset_nb 2 [[1, 2], [2, 4], [4, 8]] = 2 ∧
      Assets.date_nb 2 [[1, 2], [2, 4], [4, 8]] = 3 - 1 ∧
      ∀ i < 2, ∀ j < 3 - 1,
        ((Assets.returns 2 [[1, 2], [2, 4], [4, 8]]).getD i []).getD j 0
          = (([[1, 2], [2, 4], [4, 8]] : List (List ℚ)).getD (j + 1) []).getD i 0
              / (([[1, 2], [2, 4], [4, 8]] : List (List ℚ)).getD j []).getD i 0
              - 1 :=
  assets_returns_spec 2 3 [[1, 2], [2, 4], [4, 8]] (by decide) (by decide)
    (by decide) (by decide)

end PortfolioOpt
